import Mathlib

/-!
# SmartLesson TOS allocation and slot-assignment pipeline — verification

Shallow embedding of the core allocation / soft-preference slot-assignment
pipeline of the SmartLesson repository:

* `src/services/tos_service.py` — apportionment engine
  (`compute_bloom_item_totals`, `allocate_items_largest_remainder`);
* `src/services/question_type_service.py` — question-type ledger
  (`QuestionType`, `validate_question_type_distribution`);
* `src/services/tos_slot_assignment_service.py` — slot expansion,
  soft-preference assignment and integrity verification
  (`expand_bloom_slots`, `expand_type_slots`,
  `assign_question_types_to_bloom_slots`, `verify_assignment_integrity`).

Modelling conventions:

* Python `int` is `Int`; Python `float` is modelled as `ℚ` (exact
  arithmetic; the repository only ever adds, multiplies and divides
  teacher-entered point/weight values).
* Python `dict` (insertion ordered, unique keys) is an association list;
  well-formedness (no duplicate keys), which every genuine Python dict has,
  appears as a `Nodup` hypothesis where a theorem needs it.
* Fallible code returns `Except PyError`; `ZeroDivisionError` and
  `ValueError` are the two error shapes the embedded code can raise.
* `random.shuffle` (Python stdlib, outside the repository) is modelled as
  an explicit function argument `rng`; theorems about shuffling assume
  `∀ l, (rng l).Perm l`, which is the stdlib contract (an in-place
  permutation of the list).
* Error-message strings whose exact text no claim depends on
  (`verify_assignment_integrity`, `validate_question_type_distribution`)
  are modelled as structured error values recording exactly the data the
  Python f-strings interpolate; the one message a claim inspects
  (the integrity-violation `ValueError` of
  `assign_question_types_to_bloom_slots`) is reproduced verbatim as a
  `String`.
-/

namespace SmartLesson

/-- A learning outcome as consumed by the slot-assignment service:
a Python dict with keys `"id"` and `"text"`. -/
structure Outcome where
  id : Int
  text : String
deriving DecidableEq, Repr

/-- `BloomSlot` dataclass from `tos_slot_assignment_service.py`. -/
structure BloomSlot where
  outcome_id : Int
  outcome_text : String
  bloom_level : String
deriving DecidableEq, Repr

/-- `TypeSlot` dataclass from `tos_slot_assignment_service.py`. -/
structure TypeSlot where
  question_type : String
  points_per_item : ℚ
deriving DecidableEq, Repr

/-- `AssignedSlot` dataclass from `tos_slot_assignment_service.py`. -/
structure AssignedSlot where
  outcome_id : Int
  outcome_text : String
  bloom_level : String
  question_type : String
  points : ℚ
deriving DecidableEq, Repr

/-- `QuestionType` dataclass from `question_type_service.py` (the opaque
`id` field, a UUID used nowhere in the core pipeline, is omitted). -/
structure QuestionType where
  type : String
  items : Int
  points_per_item : ℚ
deriving DecidableEq, Repr

/-- A TOS matrix `{bloom_level: {outcome_id: item_count}}`: a Python dict
of dicts, embedded as an insertion-ordered association list. -/
abbrev TOSMatrix := List (String × List (Int × Int))

/-- The two runtime errors the embedded code can raise. -/
inductive PyError where
  | valueError : String → PyError
  | zeroDivisionError : PyError
deriving DecidableEq, Repr

/-! ## Slot expansion (`tos_slot_assignment_service.py`) -/

/-- Outcome-text lookup inside `expand_bloom_slots`:
`next((o["text"] for o in outcomes if o["id"] == outcome_id), f"Outcome {outcome_id}")`. -/
def findOutcomeText (outcomes : List Outcome) (oid : Int) : String :=
  match outcomes.find? (fun o => o.id == oid) with
  | some o => o.text
  | none => "Outcome " ++ toString oid

/-- `expand_bloom_slots(tos_matrix, outcomes)`: one `BloomSlot` per unit of
each cell, level-major then outcome order then replication order.
Python `for _ in range(item_count)` runs `item_count.toNat` times. -/
def expand_bloom_slots (tos_matrix : TOSMatrix) (outcomes : List Outcome) :
    List BloomSlot :=
  tos_matrix.flatMap (fun level_row =>
    level_row.2.flatMap (fun cell =>
      List.replicate cell.2.toNat
        ⟨cell.1, findOutcomeText outcomes cell.1, level_row.1⟩))

/-- `expand_type_slots(question_types_list)`: `items` copies of each entry,
preserving `points_per_item`. -/
def expand_type_slots (question_types_list : List QuestionType) :
    List TypeSlot :=
  question_types_list.flatMap (fun qt =>
    List.replicate qt.items.toNat ⟨qt.type, qt.points_per_item⟩)

/-! ## The preference table

In the Python source the dict literal `PREFERRED_TYPES` opens with a large
explanatory triple-quoted string placed directly before the key
`"Remember"`.  Python concatenates adjacent string literals, so the first
key of the dict is the explanatory text *concatenated with* `"Remember"`,
and the plain string `"Remember"` is not a key of the dict at all.  The
embedding reproduces this faithfully. -/

/-- The explanatory triple-quoted string that opens the `PREFERRED_TYPES`
dict literal in `tos_slot_assignment_service.py` (lines 78–106). -/
def preferredTypesCommentText : String :=
  "\n    WHY THIS MAPPING?\n    \n    This mapping aligns cognitive complexity with assessment format:\n    \n    Remember:\n    - Recall facts → MCQ (quick check) or Identification (match)\n    - Prefers: MCQ (fastest verification), Identification (pattern matching)\n    \n    Understand:\n    - Explain concepts → MCQ (comprehension check) or Short Answer\n    - Prefers: MCQ (concept verification), Short Answer (explain reasoning)\n    \n    Apply:\n    - Use knowledge in context → MCQ (simulated scenario) or Problem Solving\n    - Prefers: MCQ (scenario-based), Problem Solving (hands-on application)\n    \n    Analyze:\n    - Break down components → Short Answer (explain) or Problem Solving\n    - Prefers: Short Answer (written analysis), Problem Solving (complex steps)\n    \n    Evaluate:\n    - Judge and justify → Essay (deep argument) or Problem Solving (critical thinking)\n    - Prefers: Essay (extended argument), Problem Solving (judgment with evidence)\n    \n    Create:\n    - Produce original work → Essay (written composition) or Drawing (visual design)\n    - Prefers: Essay (new composition), Drawing (design/visualization)\n    "

/-- `PREFERRED_TYPES` exactly as Python builds it: the first key is the
explanatory string concatenated with `"Remember"` (adjacent string-literal
concatenation), the remaining five keys are the plain level names. -/
def PREFERRED_TYPES : List (String × List String) :=
  [(preferredTypesCommentText ++ "Remember", ["MCQ", "Identification"]),
   ("Understand", ["MCQ", "Short Answer"]),
   ("Apply", ["MCQ", "Problem Solving"]),
   ("Analyze", ["Short Answer", "Problem Solving"]),
   ("Evaluate", ["Essay", "Problem Solving"]),
   ("Create", ["Essay", "Drawing/Diagram"])]

/-- `PREFERRED_TYPES.get(bloom_level, [])` — dict lookup with default. -/
def preferredTypesGet (bloom_level : String) : List String :=
  match PREFERRED_TYPES.find? (fun p => p.1 == bloom_level) with
  | some p => p.2
  | none => []

/-! ## Soft-preference assignment -/

/-- One pass of the inner scan of the assignment loop: find the first
`TypeSlot` in the pool whose `question_type` equals `p` and pop it
(Python: `enumerate` scan + `available_types.pop(idx)`). -/
def removeFirstOfType (p : String) : List TypeSlot →
    Option (TypeSlot × List TypeSlot)
  | [] => none
  | t :: ts =>
    if t.question_type == p then some (t, ts)
    else
      match removeFirstOfType p ts with
      | some r => some (r.1, t :: r.2)
      | none => none

/-- The outer preference scan: try each preferred type label in priority
order; pop the first pool slot of the first label that is present. -/
def pickPreferred : List String → List TypeSlot →
    Option (TypeSlot × List TypeSlot)
  | [], _ => none
  | p :: ps, avail =>
    match removeFirstOfType p avail with
    | some r => some r
    | none => pickPreferred ps avail

/-- The main assignment loop (step 3 of
`assign_question_types_to_bloom_slots`): for each Bloom slot pop a
preferred pool slot if one exists, otherwise fall back to the pool head
(`available_types[0]`); raise `ValueError` if the pool is empty.
Returns `(assigned, preferred_matches, fallback_matches, leftover_pool)`
(the leftover pool is what `available_types` holds after the loop). -/
def assignLoop : List BloomSlot → List TypeSlot →
    Except String (List AssignedSlot × Nat × Nat × List TypeSlot)
  | [], avail => .ok ([], 0, 0, avail)
  | b :: bs, avail =>
    match pickPreferred (preferredTypesGet b.bloom_level) avail with
    | some (t, rest) =>
      match assignLoop bs rest with
      | .error e => .error e
      | .ok (tl, pm, fm, leftover) =>
        .ok (⟨b.outcome_id, b.outcome_text, b.bloom_level,
              t.question_type, t.points_per_item⟩ :: tl, pm + 1, fm, leftover)
    | none =>
      match avail with
      | [] => .error "No available question types to assign (logic error)"
      | t :: rest =>
        match assignLoop bs rest with
        | .error e => .error e
        | .ok (tl, pm, fm, leftover) =>
          .ok (⟨b.outcome_id, b.outcome_text, b.bloom_level,
                t.question_type, t.points_per_item⟩ :: tl, pm, fm + 1,
            leftover)

/-- The `metadata` dict returned by `assign_question_types_to_bloom_slots`
(`coverage_quality` is the percentage the Python f-string formats). -/
structure AssignMetadata where
  total_slots : Nat
  preferred_matches : Nat
  fallback_matches : Nat
  coverage_quality : ℚ
  bloom_slots_expanded : Nat
  type_slots_expanded : Nat
  slots_assigned : Nat
  all_types_used : Bool
  valid : Bool
deriving DecidableEq, Repr

/-- The integrity-violation `ValueError` message, verbatim from the source. -/
def integrityViolationMsg (total_bloom_items total_type_items : Nat) : String :=
  "Integrity violation: Bloom distribution (" ++ toString total_bloom_items ++
  " items) does not match question type distribution (" ++
  toString total_type_items ++
  " items). This indicates misconfiguration in TOS or question types."

/-- `assign_question_types_to_bloom_slots(tos_matrix, outcomes,
question_types_list, shuffle)`.  `rng` models `random.shuffle`
(applied only when `shuffle` is true).  Computing the
`coverage_quality` metadata entry divides `preferred_matches` by
`len(assigned)`, so a zero-length assignment raises
`ZeroDivisionError`, exactly as in Python. -/
def assign_question_types_to_bloom_slots
    (rng : List AssignedSlot → List AssignedSlot)
    (tos_matrix : TOSMatrix) (outcomes : List Outcome)
    (question_types_list : List QuestionType) (shuffle : Bool) :
    Except PyError (List AssignedSlot × AssignMetadata) :=
  let bloom_slots := expand_bloom_slots tos_matrix outcomes
  let total_bloom_items := bloom_slots.length
  let type_slots := expand_type_slots question_types_list
  let total_type_items := type_slots.length
  if total_bloom_items ≠ total_type_items then
    .error (.valueError (integrityViolationMsg total_bloom_items total_type_items))
  else
    match assignLoop bloom_slots type_slots with
    | .error e => .error (.valueError e)
    | .ok (assigned0, pm, fm, available_types) =>
      let assigned := if shuffle then rng assigned0 else assigned0
      if assigned.length = 0 then
        .error .zeroDivisionError
      else
        .ok (assigned,
          { total_slots := assigned.length
            preferred_matches := pm
            fallback_matches := fm
            coverage_quality := (pm : ℚ) / (assigned.length : ℚ) * 100
            bloom_slots_expanded := total_bloom_items
            type_slots_expanded := total_type_items
            slots_assigned := assigned.length
            all_types_used := available_types.length = 0
            valid := decide (total_bloom_items = total_type_items ∧
                             total_type_items = assigned.length) })

/-! ## Integrity verification -/

/-- Structured form of the error strings `verify_assignment_integrity`
appends; each constructor records exactly the data the Python f-string
interpolates.  The Python object-identity duplicate check
(`len(set(id(slot) ...))`) can only fire when the very same Python object
occurs twice in the list; every `AssignedSlot` the assignment algorithm
builds is a fresh object, and the embedding uses value semantics, so that
check is modelled as never producing an error. -/
inductive VerifyError where
  | bloomMismatch (level : String) (expected actual : Int)
  | typeCountMismatch (qtype : String) (expected actual : Int)
  | typePointsMismatch (qtype : String) (expected actual : ℚ)
deriving DecidableEq, Repr

/-- `verify_assignment_integrity(assigned_slots, tos_matrix,
question_types_list)`: recompute per-level counts, per-type counts and
per-type point sums from the assigned slots and compare them against the
matrix and the distribution; return `(is_valid, errors)`. -/
def verify_assignment_integrity (assigned_slots : List AssignedSlot)
    (tos_matrix : TOSMatrix) (question_types_list : List QuestionType) :
    Bool × List VerifyError :=
  let bloomErrs := tos_matrix.filterMap (fun level_row =>
    let expected : Int := (level_row.2.map Prod.snd).sum
    let actual : Int :=
      assigned_slots.countP (fun s => s.bloom_level == level_row.1)
    if expected ≠ actual then
      some (.bloomMismatch level_row.1 expected actual)
    else none)
  let typeErrs := question_types_list.flatMap (fun qt =>
    let expected : Int := qt.items
    let actual : Int :=
      assigned_slots.countP (fun s => s.question_type == qt.type)
    let countErr := if expected ≠ actual then
        [VerifyError.typeCountMismatch qt.type expected actual] else []
    let expected_points : ℚ := qt.items * qt.points_per_item
    let actual_points : ℚ :=
      ((assigned_slots.filter (fun s => s.question_type == qt.type)).map
        (fun s => s.points)).sum
    let pointsErr := if expected_points ≠ actual_points then
        [VerifyError.typePointsMismatch qt.type expected_points actual_points]
      else []
    countErr ++ pointsErr)
  let errors := bloomErrs ++ typeErrs
  (errors.isEmpty, errors)

/-! ## Apportionment engine (`tos_service.py`) -/

/-- The fixed, ordered Bloom-level enumeration `BLOOM_LEVELS`. -/
def BLOOM_LEVELS : List String :=
  ["Remember", "Understand", "Apply", "Analyze", "Evaluate", "Create"]

/-- Python `int(x)` on a number: truncation toward zero. -/
def pyInt (q : ℚ) : Int := if q < 0 then ⌈q⌉ else ⌊q⌋

/-- `compute_bloom_item_totals(bloom_weights, total_items)`: every level
except the last gets `int(total_items * (bloom_weights[bloom] / 100))`;
the last level gets the remainder.  `bloom_weights` is a dict holding all
six levels (per the module input contract), embedded as a function. -/
def compute_bloom_item_totals (bloom_weights : String → Int)
    (total_items : Int) : List (String × Int) :=
  let firsts := BLOOM_LEVELS.dropLast.map (fun bloom =>
    (bloom, pyInt ((total_items : ℚ) * ((bloom_weights bloom : ℚ) / 100))))
  firsts ++ [("Create", total_items - (firsts.map Prod.snd).sum)]

/-- An outcome as consumed by `allocate_items_largest_remainder`: a dict
with (at least) `"id"` and the `"weight"` field added by
`compute_outcome_weights`. -/
structure OutcomeW where
  id : Int
  weight : ℚ
deriving DecidableEq, Repr

/-- Python dict insert: overwrite in place if the key is present
(keeping its position), else append. -/
def dictInsert (d : List (Int × Int)) (k : Int) (v : Int) : List (Int × Int) :=
  if d.any (fun p => p.1 == k) then
    d.map (fun p => if p.1 == k then (k, v) else p)
  else d ++ [(k, v)]

/-- A Python dict comprehension over a list of key/value pairs:
first-occurrence key order, last-occurrence value. -/
def dictOfPairs (l : List (Int × Int)) : List (Int × Int) :=
  l.foldl (fun d p => dictInsert d p.1 p.2) []

/-- `allocated[oid] += 1` on a dict: bump the (unique) entry with key
`oid`.  Every key this is called with comes from `raw`, whose ids are all
dict keys, so the missing-key (`KeyError`) case is unreachable. -/
def bumpFirst (oid : Int) : List (Int × Int) → List (Int × Int)
  | [] => []
  | p :: rest =>
    if p.1 == oid then (p.1, p.2 + 1) :: rest
    else p :: bumpFirst oid rest

/-- Python list slice `l[:r]` for an `int` `r` (negative `r` counts from
the end, clamped at zero). -/
def pySliceTo (l : List α) (r : Int) : List α :=
  if r < 0 then l.take (l.length - (-r).toNat) else l.take r.toNat

/-- One level of `allocate_items_largest_remainder`: raw shares
`T * weight`, floored (`math.floor`); leftovers awarded one each to the
entries with the largest fractional remainder, descending, stable in the
original order (Python `sorted(..., reverse=True)` is a stable sort). -/
def allocateLevel (outcomes : List OutcomeW) (total_bloom_items : Int) :
    List (Int × Int) :=
  let raw : List (Int × ℚ) :=
    outcomes.map (fun o => (o.id, (total_bloom_items : ℚ) * o.weight))
  let allocated := dictOfPairs (raw.map (fun p => (p.1, ⌊p.2⌋)))
  let used := (allocated.map Prod.snd).sum
  let remaining := total_bloom_items - used
  let remainders := raw.mergeSort (fun a b =>
    decide ((b.2 - (⌊b.2⌋ : ℚ)) ≤ (a.2 - (⌊a.2⌋ : ℚ))))
  (pySliceTo remainders remaining).foldl (fun acc p => bumpFirst p.1 acc)
    allocated

/-- `allocate_items_largest_remainder(outcomes, bloom_items)`:
largest-remainder apportionment of each level total across outcomes. -/
def allocate_items_largest_remainder (outcomes : List OutcomeW)
    (bloom_items : List (String × Int)) : TOSMatrix :=
  bloom_items.map (fun bt => (bt.1, allocateLevel outcomes bt.2))

/-! ## Question-type ledger (`question_type_service.py`) -/

/-- Structured form of the error strings
`validate_question_type_distribution` appends; each constructor records
the data the Python f-string interpolates (for `duplicateTypes`, the
duplicated labels). -/
inductive QTValidationError where
  | noTypes
  | sumMismatch (total expected : Int)
  | nonPositiveItems (qtype : String) (items : Int)
  | nonPositivePoints (qtype : String) (points : ℚ)
  | duplicateTypes (dups : List String)
deriving DecidableEq, Repr

/-- `validate_question_type_distribution(question_types, total_test_items)`.
An empty list returns early with the single no-types error; otherwise all
checks run and their errors accumulate in order. -/
def validate_question_type_distribution (question_types : List QuestionType)
    (total_test_items : Int) : Bool × List QTValidationError :=
  if question_types.isEmpty then (false, [.noTypes])
  else
    let total_items := (question_types.map (fun qt => qt.items)).sum
    let sumErrs := if total_items ≠ total_test_items then
        [QTValidationError.sumMismatch total_items total_test_items] else []
    let entryErrs := question_types.flatMap (fun qt =>
      (if qt.items ≤ 0 then
        [QTValidationError.nonPositiveItems qt.type qt.items] else []) ++
      (if qt.points_per_item ≤ 0 then
        [QTValidationError.nonPositivePoints qt.type qt.points_per_item]
       else []))
    let type_names := question_types.map (fun qt => qt.type)
    let duplicates := type_names.filter (fun n => type_names.count n > 1)
    let dupErrs := if duplicates.isEmpty then []
      else [QTValidationError.duplicateTypes duplicates]
    let errors := sumErrs ++ entryErrs ++ dupErrs
    (errors.isEmpty, errors)

/-! ## Helper lemmas: counting in the expanded slot lists -/

/-- A sum of entry-wise contributions that are zero except at key `k`
collapses to the single contribution of the unique entry with key `k`. -/
theorem sum_map_ite_key {α κ M : Type*} [DecidableEq κ] [AddCommMonoid M]
    (l : List α) (key : α → κ) (f : α → M) (k : κ) (a : α)
    (hnd : (l.map key).Nodup) (hmem : a ∈ l) (hk : key a = k) :
    (l.map (fun c => if key c = k then f c else 0)).sum = f a := by
  induction l with
  | nil => simp at hmem
  | cons hd tl ih =>
    simp only [List.map_cons, List.nodup_cons] at hnd
    rcases List.mem_cons.mp hmem with heq | htl
    · subst heq
      have hz : ∀ c ∈ tl, ¬ key c = k := by
        intro c hc hck
        exact hnd.1 (hk ▸ hck ▸ List.mem_map_of_mem key hc)
      have htl0 : (tl.map (fun c => if key c = k then f c else 0)).sum = 0 := by
        rw [List.map_congr_left (g := fun _ => (0 : M))
          (fun c hc => if_neg (hz c hc))]
        simp
      simp [hk, htl0]
    · have hne : ¬ key hd = k := by
        intro hhd
        exact hnd.1 (hhd ▸ hk ▸ List.mem_map_of_mem key htl)
      simp only [List.map_cons, List.sum_cons, if_neg hne, zero_add]
      exact ih hnd.2 htl

/-- Variant of `sum_map_ite_key` taking the entry-wise shape as a
pointwise hypothesis, convenient for rewriting under binders. -/
theorem sum_map_ite_key' {α κ M : Type*} [DecidableEq κ] [AddCommMonoid M]
    (l : List α) (key : α → κ) (g : α → M) (f : α → M) (k : κ) (a : α)
    (hnd : (l.map key).Nodup) (hmem : a ∈ l) (hk : key a = k)
    (hg : ∀ c ∈ l, g c = if key c = k then f c else 0) :
    (l.map g).sum = f a := by
  rw [List.map_congr_left hg]
  exact sum_map_ite_key l key f k a hnd hmem hk

/-- All contributions vanish when no entry has key `k`. -/
theorem sum_map_ite_key_zero {α κ M : Type*} [DecidableEq κ] [AddCommMonoid M]
    (l : List α) (key : α → κ) (f : α → M) (k : κ)
    (habs : ∀ c ∈ l, key c ≠ k) :
    (l.map (fun c => if key c = k then f c else 0)).sum = 0 := by
  rw [List.map_congr_left (g := fun _ => (0 : M))
    (fun c hc => if_neg (habs c hc))]
  simp

/-- Counting in one level block of `expand_bloom_slots`. -/
theorem countP_bloom_block (o : List Outcome) (lr : String × List (Int × Int))
    (p : BloomSlot → Bool) :
    (lr.2.flatMap (fun c => List.replicate c.2.toNat
        (⟨c.1, findOutcomeText o c.1, lr.1⟩ : BloomSlot))).countP p =
    (lr.2.map (fun c =>
      if p ⟨c.1, findOutcomeText o c.1, lr.1⟩ then c.2.toNat else 0)).sum := by
  rw [List.countP_flatMap]
  congr 1
  apply List.map_congr_left
  intro c _
  simp [Function.comp, List.countP_replicate]

/-- Counting in the full expansion, as a sum of per-level per-cell terms. -/
theorem countP_expand_bloom (M : TOSMatrix) (o : List Outcome)
    (p : BloomSlot → Bool) :
    (expand_bloom_slots M o).countP p =
    (M.map (fun lr => (lr.2.map (fun c =>
      if p ⟨c.1, findOutcomeText o c.1, lr.1⟩ then c.2.toNat else 0)).sum)).sum := by
  rw [expand_bloom_slots, List.countP_flatMap]
  congr 1
  apply List.map_congr_left
  intro lr _
  exact countP_bloom_block o lr p

/-- With no duplicate level keys, the number of expanded slots at level `L`
is the sum of `L`'s row (each cell clamped at zero as `range` does). -/
theorem countP_expand_bloom_level (M : TOSMatrix) (o : List Outcome)
    (L : String) (row : List (Int × Int))
    (hnd : (M.map Prod.fst).Nodup) (hmem : (L, row) ∈ M) :
    (expand_bloom_slots M o).countP (fun s => s.bloom_level == L) =
      (row.map (fun c => c.2.toNat)).sum := by
  rw [countP_expand_bloom]
  refine sum_map_ite_key' M Prod.fst _
    (fun lr => (lr.2.map (fun c => c.2.toNat)).sum) L (L, row) hnd hmem rfl ?_
  intro lr _
  by_cases hL : lr.1 = L <;> simp [hL]

/-- With no duplicate level keys and no duplicate outcome keys in the row,
the number of expanded slots at a given (level, outcome) cell is exactly
the (clamped) cell count. -/
theorem countP_expand_bloom_cell (M : TOSMatrix) (o : List Outcome)
    (L : String) (row : List (Int × Int)) (i cnt : Int)
    (hndk : (M.map Prod.fst).Nodup) (hmem : (L, row) ∈ M)
    (hndr : (row.map Prod.fst).Nodup) (hcell : (i, cnt) ∈ row) :
    (expand_bloom_slots M o).countP
      (fun s => s.bloom_level == L && s.outcome_id == i) = cnt.toNat := by
  rw [countP_expand_bloom]
  have hinner := sum_map_ite_key row Prod.fst (f := fun c => c.2.toNat) i
    (i, cnt) hndr hcell rfl
  refine Eq.trans ?_ hinner
  refine sum_map_ite_key' M Prod.fst _
    (fun lr => (lr.2.map (fun c => if c.1 = i then c.2.toNat else 0)).sum)
    L (L, row) hndk hmem rfl ?_
  intro lr _
  by_cases hL : lr.1 = L
  · simp only [if_pos hL]
    apply congrArg
    apply List.map_congr_left
    intro c _
    by_cases hi : c.1 = i <;> simp [hi, hL]
  · rw [if_neg hL]
    rw [List.map_congr_left (g := fun _ => (0 : ℕ))
      (fun c _ => by simp [hL])]
    simp

/-- Sum over a `flatMap` is the sum of per-element sums. -/
theorem sum_flatMap {α M : Type*} [AddMonoid M] (l : List α) (f : α → List M) :
    (l.flatMap f).sum = (l.map (fun a => (f a).sum)).sum := by
  rw [List.flatMap_def, List.sum_flatten, List.map_map]
  rfl

/-- Counting in the expanded type-slot list, as a sum of per-entry terms. -/
theorem countP_expand_type (D : List QuestionType) (p : TypeSlot → Bool) :
    (expand_type_slots D).countP p =
    (D.map (fun qt =>
      if p ⟨qt.type, qt.points_per_item⟩ then qt.items.toNat else 0)).sum := by
  rw [expand_type_slots, List.countP_flatMap]
  congr 1
  apply List.map_congr_left
  intro qt _
  simp [Function.comp, List.countP_replicate]

/-- With distinct type labels, the number of expanded type slots carrying
label `qt.type` is exactly `qt.items` (clamped at zero as `range` does). -/
theorem countP_expand_type_label (D : List QuestionType) (qt : QuestionType)
    (hnd : (D.map (fun q => q.type)).Nodup) (hmem : qt ∈ D) :
    (expand_type_slots D).countP (fun t => t.question_type == qt.type) =
      qt.items.toNat := by
  rw [countP_expand_type]
  refine sum_map_ite_key' D (fun q => q.type) _ (fun q => q.items.toNat)
    qt.type qt hnd hmem rfl ?_
  intro q _
  by_cases hq : q.type = qt.type <;> simp [hq]

/-- With distinct type labels, the points carried by the expanded type
slots of label `qt.type` sum to `items × points_per_item`. -/
theorem points_sum_expand_type (D : List QuestionType) (qt : QuestionType)
    (hnd : (D.map (fun q => q.type)).Nodup) (hmem : qt ∈ D) :
    (((expand_type_slots D).filter (fun t => t.question_type == qt.type)).map
        (fun t => t.points_per_item)).sum =
      (qt.items.toNat : ℚ) * qt.points_per_item := by
  rw [expand_type_slots, List.filter_flatMap, List.map_flatMap, sum_flatMap]
  have : (qt.items.toNat : ℚ) * qt.points_per_item =
      qt.items.toNat • qt.points_per_item := by
    rw [nsmul_eq_mul]
  rw [this]
  refine sum_map_ite_key' D (fun q => q.type) _
    (fun q => q.items.toNat • q.points_per_item) qt.type qt hnd hmem rfl ?_
  intro q _
  by_cases hq : q.type = qt.type <;>
    simp [hq, List.filter_replicate, List.sum_replicate]

/-- Length of the expanded Bloom-slot list: the clamped grand total. -/
theorem length_expand_bloom (M : TOSMatrix) (o : List Outcome) :
    (expand_bloom_slots M o).length =
    (M.map (fun lr => (lr.2.map (fun c => c.2.toNat)).sum)).sum := by
  rw [expand_bloom_slots, List.length_flatMap]
  congr 1
  apply List.map_congr_left
  intro lr _
  rw [Function.comp_apply, List.length_flatMap]
  congr 1
  apply List.map_congr_left
  intro c _
  simp

/-- Length of the expanded type-slot list: the clamped item total. -/
theorem length_expand_type (D : List QuestionType) :
    (expand_type_slots D).length = (D.map (fun q => q.items.toNat)).sum := by
  rw [expand_type_slots, List.length_flatMap]
  congr 1
  apply List.map_congr_left
  intro q _
  simp

/-- Casting a sum of `Nat`-valued terms into `Int`. -/
theorem cast_nat_map_sum {α : Type*} (l : List α) (f : α → ℕ) :
    (((l.map f).sum : ℕ) : ℤ) = (l.map (fun x => ((f x : ℕ) : ℤ))).sum := by
  rw [Nat.cast_list_sum, List.map_map]
  rfl

/-- A sum of clamped non-negative integers equals the plain sum. -/
theorem sum_toNat_of_nonneg (l : List Int) (h : ∀ x ∈ l, 0 ≤ x) :
    ((l.map Int.toNat).sum : ℤ) = l.sum := by
  induction l with
  | nil => simp
  | cons x xs ih =>
    simp only [List.map_cons, List.sum_cons, Nat.cast_add]
    rw [ih (fun y hy => h y (List.mem_cons_of_mem x hy)),
      Int.toNat_of_nonneg (h x (List.mem_cons_self x xs))]

/-- Counting a Bloom level among assigned slots via the level projection. -/
theorem countP_level_proj (l : List AssignedSlot) (L : String) :
    l.countP (fun s => s.bloom_level == L) =
    (l.map (fun s => s.bloom_level)).countP (fun x => x == L) := by
  rw [List.countP_map]
  rfl

/-- Counting a Bloom level among Bloom slots via the level projection. -/
theorem countP_level_proj_bloom (l : List BloomSlot) (L : String) :
    l.countP (fun b => b.bloom_level == L) =
    (l.map (fun b => b.bloom_level)).countP (fun x => x == L) := by
  rw [List.countP_map]
  rfl

/-- Counting a question type among assigned slots via the pair projection. -/
theorem countP_type_proj (l : List AssignedSlot) (T : String) :
    l.countP (fun s => s.question_type == T) =
    (l.map (fun s => (s.question_type, s.points))).countP
      (fun pr => pr.1 == T) := by
  rw [List.countP_map]
  rfl

/-- Counting a question type among type slots via the pair projection. -/
theorem countP_type_proj_slot (l : List TypeSlot) (T : String) :
    l.countP (fun t => t.question_type == T) =
    (l.map (fun t => (t.question_type, t.points_per_item))).countP
      (fun pr => pr.1 == T) := by
  rw [List.countP_map]
  rfl

/-- Summing assigned points of a question type via the pair projection. -/
theorem points_sum_proj (l : List AssignedSlot) (T : String) :
    ((l.filter (fun s => s.question_type == T)).map (fun s => s.points)).sum =
    (((l.map (fun s => (s.question_type, s.points))).filter
      (fun pr => pr.1 == T)).map (fun pr => pr.2)).sum := by
  rw [List.filter_map, List.map_map]
  rfl

/-- Summing type-slot points of a question type via the pair projection. -/
theorem points_sum_proj_slot (l : List TypeSlot) (T : String) :
    ((l.filter (fun t => t.question_type == T)).map
      (fun t => t.points_per_item)).sum =
    (((l.map (fun t => (t.question_type, t.points_per_item))).filter
      (fun pr => pr.1 == T)).map (fun pr => pr.2)).sum := by
  rw [List.filter_map, List.map_map]
  rfl

/-! ## Helper lemmas: the assignment loop -/

/-- Popping the first pool slot of type `p` permutes the pool: the original
pool is a permutation of the popped slot put in front of the remainder. -/
theorem removeFirstOfType_perm (p : String) :
    ∀ (l : List TypeSlot) (t : TypeSlot) (rest : List TypeSlot),
      removeFirstOfType p l = some (t, rest) → l.Perm (t :: rest) := by
  intro l
  induction l with
  | nil => intro t rest h; simp [removeFirstOfType] at h
  | cons u us ih =>
    intro t rest h
    rw [removeFirstOfType] at h
    split at h
    · obtain ⟨h1, h2⟩ := Prod.mk.inj (Option.some.inj h)
      rw [← h1, ← h2]
    · split at h
      · rename_i r hr
        obtain ⟨h1, h2⟩ := Prod.mk.inj (Option.some.inj h)
        have hperm := ih r.1 r.2 hr
        rw [← h1, ← h2]
        exact (hperm.cons u).trans (List.Perm.swap r.1 u r.2)
      · exact absurd h (by simp)

/-- The preference scan pops one pool slot, permuting the pool. -/
theorem pickPreferred_perm :
    ∀ (prefs : List String) (l : List TypeSlot) (t : TypeSlot)
      (rest : List TypeSlot),
      pickPreferred prefs l = some (t, rest) → l.Perm (t :: rest) := by
  intro prefs
  induction prefs with
  | nil => intro l t rest h; simp [pickPreferred] at h
  | cons p ps ih =>
    intro l t rest h
    rw [pickPreferred] at h
    split at h
    · rename_i r hr
      exact removeFirstOfType_perm p l t rest (by rw [hr, Option.some.inj h])
    · exact ih l t rest h

/-- Specification of the assignment loop: when the Bloom-slot list and the
pool have equal length, the loop succeeds, the assigned slots carry the
Bloom slots' levels in order, and the multiset of assigned
(question type, points) pairs is exactly the pool's. -/
theorem assignLoop_spec :
    ∀ (bs : List BloomSlot) (avail : List TypeSlot),
      bs.length = avail.length →
      ∃ l pm fm, assignLoop bs avail = .ok (l, pm, fm, []) ∧
        l.map (fun a => a.bloom_level) = bs.map (fun b => b.bloom_level) ∧
        (l.map (fun a => (a.question_type, a.points))).Perm
          (avail.map (fun t => (t.question_type, t.points_per_item)))
  | [], avail, h => by
    have : avail = [] := List.length_eq_zero.mp h.symm
    subst this
    exact ⟨[], 0, 0, rfl, rfl, .refl _⟩
  | b :: bs, avail, h => by
    cases hp : pickPreferred (preferredTypesGet b.bloom_level) avail with
    | some tr =>
      obtain ⟨t, rest⟩ := tr
      have hperm := pickPreferred_perm _ avail t rest hp
      have hlen : bs.length = rest.length := by
        have := hperm.length_eq
        simp only [List.length_cons] at this h
        omega
      obtain ⟨l, pm, fm, hok, hbl, htp⟩ := assignLoop_spec bs rest hlen
      refine ⟨⟨b.outcome_id, b.outcome_text, b.bloom_level,
        t.question_type, t.points_per_item⟩ :: l, pm + 1, fm, ?_, ?_, ?_⟩
      · simp only [assignLoop, hp, hok]
      · simpa using hbl
      · refine List.Perm.trans ?_ (hperm.map _).symm
        simpa using htp.cons (t.question_type, t.points_per_item)
    | none =>
      cases avail with
      | nil => simp at h
      | cons t rest =>
        have hlen : bs.length = rest.length := by
          simp only [List.length_cons] at h; omega
        obtain ⟨l, pm, fm, hok, hbl, htp⟩ := assignLoop_spec bs rest hlen
        refine ⟨⟨b.outcome_id, b.outcome_text, b.bloom_level,
          t.question_type, t.points_per_item⟩ :: l, pm, fm + 1, ?_, ?_, ?_⟩
        · simp only [assignLoop, hp, hok]
        · simpa using hbl
        · simpa using htp.cons (t.question_type, t.points_per_item)


/-! ## Helper lemmas: running the assignment end to end -/

/-- With equal expanded lengths and a non-empty result, the whole
`shuffle=False` assignment succeeds with the loop's output list. -/
theorem assign_false_eq_ok (rng : List AssignedSlot → List AssignedSlot)
    (M : TOSMatrix) (o : List Outcome) (D : List QuestionType)
    (hlen : (expand_bloom_slots M o).length = (expand_type_slots D).length)
    {l : List AssignedSlot} {pm fm : Nat} {leftover : List TypeSlot}
    (hok : assignLoop (expand_bloom_slots M o) (expand_type_slots D) =
      .ok (l, pm, fm, leftover))
    (hnz : l.length ≠ 0) :
    ∃ md, assign_question_types_to_bloom_slots rng M o D false =
      .ok (l, md) := by
  simp only [assign_question_types_to_bloom_slots]
  rw [if_neg (not_not_intro hlen)]
  split
  · rename_i e he
    rw [hok] at he
    exact absurd he (by simp)
  · rename_i p a0 pm0 fm0 lo0 he
    rw [hok] at he
    obtain ⟨h1, -⟩ := Prod.mk.inj_iff.mp (Except.ok.inj he)
    subst h1
    simp only [Bool.false_eq_true, if_false]
    rw [if_neg hnz]
    exact ⟨_, rfl⟩

/-- With equal expanded lengths, the assignment either succeeds or raises
`ZeroDivisionError`; in particular it never raises a `ValueError`. -/
theorem assign_result_of_eq_length (rng : List AssignedSlot → List AssignedSlot)
    (M : TOSMatrix) (o : List Outcome) (D : List QuestionType) (sh : Bool)
    (hlen : (expand_bloom_slots M o).length = (expand_type_slots D).length) :
    (∃ res, assign_question_types_to_bloom_slots rng M o D sh = .ok res) ∨
      assign_question_types_to_bloom_slots rng M o D sh =
        .error .zeroDivisionError := by
  obtain ⟨l, pm, fm, hok, -, -⟩ :=
    assignLoop_spec (expand_bloom_slots M o) (expand_type_slots D) hlen
  simp only [assign_question_types_to_bloom_slots]
  rw [if_neg (not_not_intro hlen)]
  split
  · rename_i e he
    rw [hok] at he
    exact absurd he (by simp)
  · rename_i p a0 pm0 fm0 lo0 he
    by_cases hz : (if sh = true then rng a0 else a0).length = 0
    · right
      rw [if_pos hz]
    · left
      exact ⟨_, by rw [if_neg hz]⟩

/-- `verify_assignment_integrity` accepts exactly when every per-level
count, per-type count and per-type point sum matches. -/
theorem verify_ok_of (l : List AssignedSlot) (M : TOSMatrix)
    (D : List QuestionType)
    (hbloom : ∀ lr ∈ M,
      ((lr.2.map Prod.snd).sum : Int) =
        (l.countP (fun s => s.bloom_level == lr.1) : Int))
    (htype : ∀ qt ∈ D,
      (qt.items : Int) = (l.countP (fun s => s.question_type == qt.type) : Int))
    (hpts : ∀ qt ∈ D,
      (qt.items : ℚ) * qt.points_per_item =
        ((l.filter (fun s => s.question_type == qt.type)).map
          (fun s => s.points)).sum) :
    verify_assignment_integrity l M D = (true, []) := by
  simp only [verify_assignment_integrity]
  have h1 : M.filterMap (fun level_row =>
      if ((level_row.2.map Prod.snd).sum : Int) ≠
          (l.countP (fun s => s.bloom_level == level_row.1) : Int) then
        some (VerifyError.bloomMismatch level_row.1
          ((level_row.2.map Prod.snd).sum : Int)
          (l.countP (fun s => s.bloom_level == level_row.1) : Int))
      else none) = [] :=
    List.filterMap_eq_nil_iff.mpr (fun lr hlr =>
      if_neg (not_not_intro (hbloom lr hlr)))
  have h2 : D.flatMap (fun qt =>
      (if (qt.items : Int) ≠
          (l.countP (fun s => s.question_type == qt.type) : Int) then
        [VerifyError.typeCountMismatch qt.type (qt.items : Int)
          (l.countP (fun s => s.question_type == qt.type) : Int)]
      else []) ++
      (if (qt.items : ℚ) * qt.points_per_item ≠
          ((l.filter (fun s => s.question_type == qt.type)).map
            (fun s => s.points)).sum then
        [VerifyError.typePointsMismatch qt.type
          ((qt.items : ℚ) * qt.points_per_item)
          (((l.filter (fun s => s.question_type == qt.type)).map
            (fun s => s.points)).sum)]
      else [])) = [] :=
    List.flatMap_eq_nil_iff.mpr (fun qt hqt => by
      rw [if_neg (not_not_intro (htype qt hqt)),
        if_neg (not_not_intro (hpts qt hqt))]
      rfl)
  rw [h1, h2]
  rfl

/-- The signed length of the expanded Bloom-slot list equals the grand
total of the matrix when all cells are non-negative. -/
theorem length_expand_bloom_int (M : TOSMatrix) (o : List Outcome)
    (hcells : ∀ lr ∈ M, ∀ c ∈ lr.2, 0 ≤ c.2) :
    ((expand_bloom_slots M o).length : Int) =
      (M.map (fun lr => (lr.2.map Prod.snd).sum)).sum := by
  rw [length_expand_bloom, cast_nat_map_sum]
  apply congrArg
  apply List.map_congr_left
  intro lr hlr
  have hmm : lr.2.map (fun c => c.2.toNat) =
      (lr.2.map Prod.snd).map Int.toNat := by
    rw [List.map_map]
    rfl
  rw [hmm]
  exact sum_toNat_of_nonneg (lr.2.map Prod.snd) (by
    intro x hx
    obtain ⟨c, hc, rfl⟩ := List.mem_map.mp hx
    exact hcells lr hlr c hc)

/-- The signed length of the expanded type-slot list equals the item total
when all item counts are non-negative. -/
theorem length_expand_type_int (D : List QuestionType)
    (hitems : ∀ qt ∈ D, 0 ≤ qt.items) :
    ((expand_type_slots D).length : Int) =
      (D.map (fun q => q.items)).sum := by
  rw [length_expand_type, cast_nat_map_sum]
  apply congrArg
  apply List.map_congr_left
  intro q hq
  exact congrArg Int.ofNat (rfl) |>.trans (Int.toNat_of_nonneg (hitems q hq))

/-! ## The claims -/

/-- C1 (amended: additionally the distribution must be non-empty, i.e. the
common total must be positive; with both totals zero the function raises
`ZeroDivisionError` instead of returning — see the counterexample):
for every TOS matrix with distinct level keys and non-negative cells, every
outcome list, and every question-type distribution with pairwise-distinct
labels and positive item counts whose item total equals the matrix grand
total, `assign_question_types_to_bloom_slots` with `shuffle=False` returns
without error and `verify_assignment_integrity` applied to its assigned
slots with the same matrix and distribution returns `(True, [])`. -/
theorem C1_assign_verify_roundtrip
    (rng : List AssignedSlot → List AssignedSlot)
    (M : TOSMatrix) (o : List Outcome) (D : List QuestionType)
    (hkeys : (M.map Prod.fst).Nodup)
    (hcells : ∀ lr ∈ M, ∀ c ∈ lr.2, 0 ≤ c.2)
    (htypes : (D.map (fun q => q.type)).Nodup)
    (hitems : ∀ qt ∈ D, 0 < qt.items)
    (hsum : (M.map (fun lr => (lr.2.map Prod.snd).sum)).sum =
            (D.map (fun q => q.items)).sum)
    (hne : D ≠ []) :
    ∃ l md,
      assign_question_types_to_bloom_slots rng M o D false = .ok (l, md) ∧
      verify_assignment_integrity l M D = (true, []) := by
  have hlen : (expand_bloom_slots M o).length = (expand_type_slots D).length := by
    have h : ((expand_bloom_slots M o).length : Int) =
        ((expand_type_slots D).length : Int) := by
      rw [length_expand_bloom_int M o hcells,
        length_expand_type_int D (fun qt hqt => le_of_lt (hitems qt hqt)), hsum]
    exact_mod_cast h
  obtain ⟨l, pm, fm, hok, hbl, htp⟩ :=
    assignLoop_spec (expand_bloom_slots M o) (expand_type_slots D) hlen
  -- the result is non-empty because some entry has a positive item count
  have hnz : l.length ≠ 0 := by
    have hll : l.length = (expand_bloom_slots M o).length := by
      have := congrArg List.length hbl
      simpa using this
    rw [hll, hlen, length_expand_type]
    intro h0
    obtain ⟨qt0, hqt0⟩ := List.exists_mem_of_ne_nil D hne
    have := List.sum_eq_zero_iff.mp h0 qt0.items.toNat
      (List.mem_map_of_mem (fun q => q.items.toNat) hqt0)
    have hpos := hitems qt0 hqt0
    omega
  obtain ⟨md, hmd⟩ := assign_false_eq_ok rng M o D hlen hok hnz
  refine ⟨l, md, hmd, ?_⟩
  apply verify_ok_of
  · intro lr hlr
    rw [countP_level_proj, hbl, ← countP_level_proj_bloom]
    have hmem : (lr.1, lr.2) ∈ M := by rw [Prod.mk.eta]; exact hlr
    rw [countP_expand_bloom_level M o lr.1 lr.2 hkeys hmem]
    have hmm : lr.2.map (fun c => c.2.toNat) =
        (lr.2.map Prod.snd).map Int.toNat := by
      rw [List.map_map]
      rfl
    rw [hmm, sum_toNat_of_nonneg (lr.2.map Prod.snd) (by
      intro x hx
      obtain ⟨c, hc, rfl⟩ := List.mem_map.mp hx
      exact hcells lr hlr c hc)]
  · intro qt hqt
    rw [countP_type_proj, htp.countP_eq (fun pr => pr.1 == qt.type),
      ← countP_type_proj_slot, countP_expand_type_label D qt htypes hqt,
      Int.toNat_of_nonneg (le_of_lt (hitems qt hqt))]
  · intro qt hqt
    rw [points_sum_proj,
      ((htp.filter (fun pr => pr.1 == qt.type)).map (fun pr => pr.2)).sum_eq,
      ← points_sum_proj_slot, points_sum_expand_type D qt htypes hqt]
    have : ((qt.items.toNat : ℕ) : ℚ) = ((qt.items : Int) : ℚ) := by
      exact_mod_cast congrArg (fun z => ((z : Int) : ℚ))
        (Int.toNat_of_nonneg (le_of_lt (hitems qt hqt)))
    rw [this]

/-- C2 (the code contradicts the claim and its own documentation): because
the explanatory string literal inside the `PREFERRED_TYPES` dict literal
concatenates with the adjacent `"Remember"` key, looking up `"Remember"`
yields no preference list, so on the claim's own example every Remember
slot takes the fallback path: the metadata reports 8 preferred matches
(the Apply slots) and 12 fallback matches, not 12 preferred Remember
matches. -/
theorem C2_remember_preferences_lost :
    preferredTypesGet "Remember" = [] ∧
    (assign_question_types_to_bloom_slots id
        [("Remember", [(0, 12)]), ("Apply", [(0, 8)])]
        [⟨0, "Understand core concepts"⟩]
        [⟨"MCQ", 12, 1⟩, ⟨"Problem Solving", 8, 2⟩] false).toOption.map
      (fun p => (p.2.preferred_matches, p.2.fallback_matches)) =
      some (8, 12) := by
  constructor
  · rfl
  · rfl

/-- C3: the assignment raises the integrity-violation `ValueError`, whose
message names both expanded totals, exactly when the two expanded slot
lists have different lengths. -/
theorem C3_integrity_violation_iff
    (rng : List AssignedSlot → List AssignedSlot)
    (M : TOSMatrix) (o : List Outcome) (D : List QuestionType) (sh : Bool) :
    assign_question_types_to_bloom_slots rng M o D sh =
      .error (.valueError (integrityViolationMsg
        (expand_bloom_slots M o).length (expand_type_slots D).length)) ↔
    (expand_bloom_slots M o).length ≠ (expand_type_slots D).length := by
  constructor
  · intro h
    by_contra hlen
    rcases assign_result_of_eq_length rng M o D sh hlen with ⟨res, hres⟩ | hzd
    · rw [h] at hres
      exact absurd hres (by simp)
    · rw [h] at hzd
      simp at hzd
  · intro hne
    simp only [assign_question_types_to_bloom_slots]
    rw [if_pos hne]

/-- C9: when both expanded slot lists are empty (which the equal-length
check allows), the assignment does not return an empty blueprint: the
`coverage_quality` metadata computation divides by the number of assigned
slots and raises `ZeroDivisionError`. -/
theorem C9_zero_total_division_error
    (rng : List AssignedSlot → List AssignedSlot)
    (h : ∀ l : List AssignedSlot, (rng l).Perm l)
    (M : TOSMatrix) (o : List Outcome) (D : List QuestionType) (sh : Bool)
    (hb : expand_bloom_slots M o = []) (ht : expand_type_slots D = []) :
    assign_question_types_to_bloom_slots rng M o D sh =
      .error .zeroDivisionError := by
  have h0 : (rng []).length = 0 := by
    rw [(h []).length_eq]
    rfl
  simp only [assign_question_types_to_bloom_slots]
  rw [hb, ht]
  cases sh
  · simp [assignLoop]
  · simp [assignLoop, h0]

/-- C10: `verify_assignment_integrity` compares only levels present in the
matrix and types present in the distribution, so with an empty matrix and
empty distribution it accepts any slot list — in particular a single slot
with an unknown level and type, although the slot count (1) differs from
the matrix grand total (0). -/
theorem C10_verify_ignores_unknown_slots :
    (∀ slots : List AssignedSlot,
      verify_assignment_integrity slots [] [] = (true, [])) ∧
    (([⟨0, "text", "UnknownLevel", "UnknownType", 1⟩] :
        List AssignedSlot).length : Int) ≠
      (([] : TOSMatrix).map (fun lr => (lr.2.map Prod.snd).sum)).sum := by
  constructor
  · intro slots
    rfl
  · decide

/-- C6: with `shuffle=False` the result does not depend on the random
source at all (two calls on identical inputs agree), and with
`shuffle=True` the returned list is a permutation of the `shuffle=False`
result with identical metadata — the multiset of assigned slots is the
same either way. -/
theorem C6_shuffle_is_permutation
    (rng : List AssignedSlot → List AssignedSlot)
    (h : ∀ l : List AssignedSlot, (rng l).Perm l)
    (M : TOSMatrix) (o : List Outcome) (D : List QuestionType) :
    (∀ rng2 : List AssignedSlot → List AssignedSlot,
      assign_question_types_to_bloom_slots rng2 M o D false =
        assign_question_types_to_bloom_slots rng M o D false) ∧
    (∀ l1 md1,
      assign_question_types_to_bloom_slots rng M o D true = .ok (l1, md1) →
      ∃ l0 md0,
        assign_question_types_to_bloom_slots rng M o D false = .ok (l0, md0) ∧
        l1.Perm l0 ∧ md1 = md0) := by
  constructor
  · intro rng2
    simp only [assign_question_types_to_bloom_slots, Bool.false_eq_true,
      if_false]
  · intro l1 md1 hA
    simp only [assign_question_types_to_bloom_slots] at hA ⊢
    by_cases hlen :
        (expand_bloom_slots M o).length = (expand_type_slots D).length
    · rw [if_neg (not_not_intro hlen)] at hA ⊢
      obtain ⟨l, pm, fm, hok, -, -⟩ :=
        assignLoop_spec (expand_bloom_slots M o) (expand_type_slots D) hlen
      rw [hok] at hA ⊢
      simp only [if_true] at hA
      by_cases hz : (rng l).length = 0
      · rw [if_pos hz] at hA
        exact absurd hA (by simp)
      · rw [if_neg hz] at hA
        obtain ⟨h1, h2⟩ := Prod.mk.inj (Except.ok.inj hA)
        have hll : l.length = (rng l).length := ((h l).length_eq).symm
        have hlz : ¬ l.length = 0 := by rw [hll]; exact hz
        simp only [Bool.false_eq_true, if_false]
        rw [if_neg hlz]
        refine ⟨l, _, rfl, ?_, ?_⟩
        · rw [← h1]
          exact h l
        · rw [← h2, hll]
    · rw [if_pos hlen] at hA
      exact absurd hA (by simp)

/-- C5: with non-negative total and non-negative percentage weights (the
`BloomWeights` data model), each of the first five canonical levels gets
`floor(total_items * weight/100)`, the last level (`Create`) gets
`total_items` minus the sum of the first five, the six counts always sum
to exactly `total_items`, and a zero total yields all-zero counts. -/
theorem C5_bloom_totals (w : String → Int) (total_items : Int)
    (ht : 0 ≤ total_items) (hw : ∀ b ∈ BLOOM_LEVELS, 0 ≤ w b) :
    compute_bloom_item_totals w total_items =
      (BLOOM_LEVELS.dropLast.map (fun b =>
        (b, ⌊(total_items : ℚ) * ((w b : ℚ) / 100)⌋))) ++
      [("Create", total_items - (BLOOM_LEVELS.dropLast.map (fun b =>
        ⌊(total_items : ℚ) * ((w b : ℚ) / 100)⌋)).sum)] ∧
    ((compute_bloom_item_totals w total_items).map Prod.snd).sum =
      total_items ∧
    (total_items = 0 → compute_bloom_item_totals w total_items =
      BLOOM_LEVELS.map (fun b => (b, 0))) := by
  have hfloor : ∀ b ∈ BLOOM_LEVELS,
      pyInt ((total_items : ℚ) * ((w b : ℚ) / 100)) =
      ⌊(total_items : ℚ) * ((w b : ℚ) / 100)⌋ := by
    intro b hb
    have hnn : (0 : ℚ) ≤ (total_items : ℚ) * ((w b : ℚ) / 100) := by
      apply mul_nonneg
      · exact_mod_cast ht
      · apply div_nonneg
        · exact_mod_cast hw b hb
        · norm_num
    rw [pyInt, if_neg (not_lt.mpr hnn)]
  have hmem : ∀ b ∈ BLOOM_LEVELS.dropLast, b ∈ BLOOM_LEVELS := by
    intro b hb
    exact (List.dropLast_sublist BLOOM_LEVELS).subset hb
  have hfirsts : BLOOM_LEVELS.dropLast.map (fun b =>
      (b, pyInt ((total_items : ℚ) * ((w b : ℚ) / 100)))) =
      BLOOM_LEVELS.dropLast.map (fun b =>
        (b, ⌊(total_items : ℚ) * ((w b : ℚ) / 100)⌋)) :=
    List.map_congr_left (fun b hb => by rw [hfloor b (hmem b hb)])
  refine ⟨?_, ?_, ?_⟩
  · rw [compute_bloom_item_totals, hfirsts]
    rfl
  · rw [compute_bloom_item_totals]
    simp only [List.map_append, List.sum_append, List.map_map, BLOOM_LEVELS]
    simp only [List.dropLast, List.map_cons, List.map_nil, List.sum_cons,
      List.sum_nil, Function.comp]
    ring
  · intro h0
    subst h0
    simp [compute_bloom_item_totals, BLOOM_LEVELS, pyInt, List.dropLast]

/-- The duplicate scan of `validate_question_type_distribution` finds
nothing exactly when the label list has no duplicates. -/
theorem duplicates_isEmpty_iff (names : List String) :
    (names.filter (fun n => names.count n > 1)).isEmpty = true ↔
      names.Nodup := by
  rw [List.isEmpty_iff, List.filter_eq_nil_iff]
  constructor
  · intro h
    rw [List.nodup_iff_count_le_one]
    intro a
    by_cases ha : a ∈ names
    · have := h a ha
      simp only [decide_eq_true_eq, not_lt] at this
      omega
    · rw [List.count_eq_zero.mpr ha]
      omega
  · intro h n hn
    have := List.nodup_iff_count_le_one.mp h n
    simp only [decide_eq_true_eq, not_lt]
    omega

/-- A guarded singleton is empty exactly when the guard fails. -/
theorem ite_singleton_eq_nil {α : Type*} {c : Prop} [Decidable c] (x : α) :
    (if c then [x] else []) = [] ↔ ¬c := by
  by_cases h : c <;> simp [h]

/-- A negatively guarded singleton is empty exactly when the guard holds. -/
theorem ite_nil_singleton_eq_nil {α : Type*} {c : Prop} [Decidable c]
    (x : α) : (if c then [] else [x]) = [] ↔ c := by
  by_cases h : c <;> simp [h]

/-- Membership in a guarded singleton. -/
theorem mem_ite_singleton {α : Type*} {c : Prop} [Decidable c] (x y : α) :
    y ∈ (if c then [x] else []) ↔ c ∧ y = x := by
  by_cases h : c <;> simp [h]

/-- Membership in a negatively guarded singleton. -/
theorem mem_ite_nil_singleton {α : Type*} {c : Prop} [Decidable c]
    (x y : α) : y ∈ (if c then [] else [x]) ↔ ¬c ∧ y = x := by
  by_cases h : c <;> simp [h]

/-- C8 (amended: an empty distribution returns early with only the
empty-distribution violation; for a non-empty distribution every violated
rule contributes an entry): validation accepts exactly when the list is
non-empty, the items sum to the target, every entry is positive and the
labels are distinct; an empty list reports exactly the single no-types
error; and for non-empty lists each of the four rules is violated exactly
when a corresponding error entry appears in the returned list. -/
theorem C8_validate_characterization (qts : List QuestionType)
    (total : Int) :
    (validate_question_type_distribution qts total = (true, []) ↔
      (qts ≠ [] ∧ (qts.map (fun q => q.items)).sum = total ∧
       (∀ qt ∈ qts, 0 < qt.items ∧ 0 < qt.points_per_item) ∧
       (qts.map (fun q => q.type)).Nodup)) ∧
    (qts = [] →
      validate_question_type_distribution qts total = (false, [.noTypes])) ∧
    (qts ≠ [] →
      (((qts.map (fun q => q.items)).sum ≠ total ↔
        QTValidationError.sumMismatch ((qts.map (fun q => q.items)).sum)
          total ∈ (validate_question_type_distribution qts total).2) ∧
       (∀ qt ∈ qts, (qt.items ≤ 0 ↔
         QTValidationError.nonPositiveItems qt.type qt.items ∈
           (validate_question_type_distribution qts total).2)) ∧
       (∀ qt ∈ qts, (qt.points_per_item ≤ 0 ↔
         QTValidationError.nonPositivePoints qt.type qt.points_per_item ∈
           (validate_question_type_distribution qts total).2)) ∧
       (¬(qts.map (fun q => q.type)).Nodup ↔
         ∃ ds, QTValidationError.duplicateTypes ds ∈
           (validate_question_type_distribution qts total).2))) := by
  cases qts with
  | nil =>
    refine ⟨?_, fun _ => rfl, fun hne => absurd rfl hne⟩
    constructor
    · intro h
      rw [validate_question_type_distribution] at h
      simp at h
    · rintro ⟨hne, -⟩
      exact absurd rfl hne
  | cons q0 rest =>
    have hval : validate_question_type_distribution (q0 :: rest) total =
        (((if ((q0 :: rest).map (fun qt => qt.items)).sum ≠ total then
            [QTValidationError.sumMismatch
              (((q0 :: rest).map (fun qt => qt.items)).sum) total] else []) ++
          ((q0 :: rest).flatMap (fun qt =>
            (if qt.items ≤ 0 then
              [QTValidationError.nonPositiveItems qt.type qt.items]
             else []) ++
            (if qt.points_per_item ≤ 0 then
              [QTValidationError.nonPositivePoints qt.type
                qt.points_per_item] else []))) ++
          (if (((q0 :: rest).map (fun qt => qt.type)).filter
              (fun n => ((q0 :: rest).map (fun qt => qt.type)).count n > 1)).isEmpty
           then []
           else [QTValidationError.duplicateTypes
            (((q0 :: rest).map (fun qt => qt.type)).filter
              (fun n => ((q0 :: rest).map (fun qt => qt.type)).count n > 1))])).isEmpty,
         ((if ((q0 :: rest).map (fun qt => qt.items)).sum ≠ total then
            [QTValidationError.sumMismatch
              (((q0 :: rest).map (fun qt => qt.items)).sum) total] else []) ++
          ((q0 :: rest).flatMap (fun qt =>
            (if qt.items ≤ 0 then
              [QTValidationError.nonPositiveItems qt.type qt.items]
             else []) ++
            (if qt.points_per_item ≤ 0 then
              [QTValidationError.nonPositivePoints qt.type
                qt.points_per_item] else []))) ++
          (if (((q0 :: rest).map (fun qt => qt.type)).filter
              (fun n => ((q0 :: rest).map (fun qt => qt.type)).count n > 1)).isEmpty
           then []
           else [QTValidationError.duplicateTypes
            (((q0 :: rest).map (fun qt => qt.type)).filter
              (fun n => ((q0 :: rest).map (fun qt => qt.type)).count n > 1))]))) := by
      rw [validate_question_type_distribution]
      simp only [List.isEmpty_cons, Bool.false_eq_true, if_false]
    refine ⟨?_, fun habs => absurd habs (by simp), fun _ => ⟨?_, ?_, ?_, ?_⟩⟩
    · rw [hval]
      rw [Prod.mk.injEq, List.isEmpty_iff, and_self]
      rw [List.append_eq_nil, List.append_eq_nil]
      rw [ite_singleton_eq_nil, ite_nil_singleton_eq_nil,
        List.flatMap_eq_nil_iff, duplicates_isEmpty_iff]
      constructor
      · rintro ⟨⟨hsum, hpos⟩, hdup⟩
        refine ⟨by simp, not_not.mp hsum, ?_, hdup⟩
        intro qt hqt
        have := hpos qt hqt
        rw [List.append_eq_nil, ite_singleton_eq_nil,
          ite_singleton_eq_nil] at this
        exact ⟨lt_of_not_le this.1, lt_of_not_le this.2⟩
      · rintro ⟨-, hsum, hpos, hdup⟩
        refine ⟨⟨not_not_intro hsum, ?_⟩, hdup⟩
        intro qt hqt
        rw [List.append_eq_nil, ite_singleton_eq_nil, ite_singleton_eq_nil]
        exact ⟨not_le_of_lt (hpos qt hqt).1, not_le_of_lt (hpos qt hqt).2⟩
    · rw [hval]
      simp only [List.mem_append, mem_ite_singleton, mem_ite_nil_singleton,
        List.mem_flatMap]
      constructor
      · intro hs
        exact Or.inl (Or.inl ⟨hs, by simp⟩)
      · rintro ((⟨hs, -⟩ | ⟨qt, -, hmem⟩) | ⟨-, habs⟩)
        · exact hs
        · rcases hmem with ⟨-, habs⟩ | ⟨-, habs⟩ <;> simp at habs
        · simp at habs
    · intro qt hqt
      rw [hval]
      simp only [List.mem_append, mem_ite_singleton, mem_ite_nil_singleton,
        List.mem_flatMap]
      constructor
      · intro hs
        exact Or.inl (Or.inr ⟨qt, hqt, Or.inl ⟨hs, rfl⟩⟩)
      · rintro ((⟨-, habs⟩ | ⟨qt2, -, hmem⟩) | ⟨-, habs⟩)
        · simp at habs
        · rcases hmem with ⟨hle, heq⟩ | ⟨-, habs⟩
          · obtain ⟨-, h2⟩ := QTValidationError.nonPositiveItems.inj heq
            omega
          · simp at habs
        · simp at habs
    · intro qt hqt
      rw [hval]
      simp only [List.mem_append, mem_ite_singleton, mem_ite_nil_singleton,
        List.mem_flatMap]
      constructor
      · intro hs
        exact Or.inl (Or.inr ⟨qt, hqt, Or.inr ⟨hs, rfl⟩⟩)
      · rintro ((⟨-, habs⟩ | ⟨qt2, -, hmem⟩) | ⟨-, habs⟩)
        · simp at habs
        · rcases hmem with ⟨-, habs⟩ | ⟨hle, heq⟩
          · simp at habs
          · obtain ⟨-, h2⟩ := QTValidationError.nonPositivePoints.inj heq
            rw [h2]
            exact hle
        · simp at habs
    · rw [hval]
      simp only [List.mem_append, mem_ite_singleton, mem_ite_nil_singleton,
        List.mem_flatMap]
      rw [← duplicates_isEmpty_iff]
      constructor
      · intro hnd
        exact ⟨_, Or.inr ⟨hnd, rfl⟩⟩
      · rintro ⟨ds, (⟨-, habs⟩ | ⟨qt2, -, hmem⟩) | ⟨hnd, -⟩⟩
        · simp at habs
        · rcases hmem with ⟨-, habs⟩ | ⟨-, habs⟩ <;> simp at habs
        · exact hnd

/-! ## Helper lemmas: largest-remainder allocation -/

/-- Building a dict from pairs with pairwise-distinct keys appends them in
order: no overwrite ever fires. -/
theorem foldl_dictInsert (l : List (Int × Int)) :
    ∀ acc : List (Int × Int), (l.map Prod.fst).Nodup →
      (∀ p ∈ l, p.1 ∉ acc.map Prod.fst) →
      l.foldl (fun d p => dictInsert d p.1 p.2) acc = acc ++ l := by
  induction l with
  | nil => intro acc _ _; simp
  | cons p rest ih =>
    intro acc hnd hdisj
    simp only [List.foldl_cons]
    have hpn : p.1 ∉ acc.map Prod.fst := hdisj p (List.mem_cons_self p rest)
    have hany : ¬ acc.any (fun q => q.1 == p.1) = true := by
      intro h
      obtain ⟨q, hq, hqe⟩ := List.any_eq_true.mp h
      exact hpn (beq_iff_eq.mp hqe ▸ List.mem_map_of_mem Prod.fst hq)
    have hstep : dictInsert acc p.1 p.2 = acc ++ [p] := by
      rw [dictInsert, if_neg hany, Prod.mk.eta]
    rw [hstep]
    simp only [List.map_cons, List.nodup_cons] at hnd
    have hdisj2 : ∀ q ∈ rest, q.1 ∉ (acc ++ [p]).map Prod.fst := by
      intro q hq
      rw [List.map_append, List.mem_append]
      rintro (h1 | h2)
      · exact hdisj q (List.mem_cons_of_mem p hq) h1
      · simp only [List.map_cons, List.map_nil, List.mem_singleton] at h2
        exact hnd.1 (h2 ▸ List.mem_map_of_mem Prod.fst hq)
    rw [ih (acc ++ [p]) hnd.2 hdisj2, List.append_assoc]
    rfl

/-- With pairwise-distinct keys the dict comprehension is the identity. -/
theorem dictOfPairs_eq_self (l : List (Int × Int))
    (h : (l.map Prod.fst).Nodup) : dictOfPairs l = l := by
  rw [dictOfPairs, foldl_dictInsert l [] h (by simp)]
  rfl

/-- `bumpFirst` preserves the key sequence. -/
theorem bumpFirst_map_fst (k : Int) :
    ∀ l : List (Int × Int), (bumpFirst k l).map Prod.fst = l.map Prod.fst := by
  intro l
  induction l with
  | nil => rfl
  | cons p rest ih =>
    rw [bumpFirst]
    split
    · rfl
    · simp only [List.map_cons]
      rw [ih]

/-- `bumpFirst` adds exactly one to the value sum when the key occurs. -/
theorem bumpFirst_sum (k : Int) :
    ∀ l : List (Int × Int), k ∈ l.map Prod.fst →
      ((bumpFirst k l).map Prod.snd).sum = (l.map Prod.snd).sum + 1 := by
  intro l
  induction l with
  | nil => intro h; simp at h
  | cons p rest ih =>
    intro hk
    rw [bumpFirst]
    split
    · simp only [List.map_cons, List.sum_cons]
      omega
    · rename_i hne
      simp only [List.map_cons, List.mem_cons] at hk
      rcases hk with h1 | h2
      · exact absurd (beq_iff_eq.mpr h1.symm) hne
      · simp only [List.map_cons, List.sum_cons]
        rw [ih h2]
        omega

/-- Folding `bumpFirst` over award entries whose keys are all present
keeps the key sequence and adds the number of awards to the value sum. -/
theorem foldl_bumpFirst_spec :
    ∀ (S : List (Int × ℚ)) (acc : List (Int × Int)),
      (∀ p ∈ S, p.1 ∈ acc.map Prod.fst) →
      ((S.foldl (fun a p => bumpFirst p.1 a) acc).map Prod.fst =
        acc.map Prod.fst) ∧
      (((S.foldl (fun a p => bumpFirst p.1 a) acc).map Prod.snd).sum =
        (acc.map Prod.snd).sum + S.length) := by
  intro S
  induction S with
  | nil => intro acc _; simp
  | cons p rest ih =>
    intro acc hmem
    simp only [List.foldl_cons, List.length_cons]
    have h1 := bumpFirst_map_fst p.1 acc
    have hrest : ∀ q ∈ rest, q.1 ∈ (bumpFirst p.1 acc).map Prod.fst := by
      intro q hq
      rw [h1]
      exact hmem q (List.mem_cons_of_mem p hq)
    obtain ⟨ihf, ihs⟩ := ih (bumpFirst p.1 acc) hrest
    refine ⟨by rw [ihf, h1], ?_⟩
    rw [ihs, bumpFirst_sum p.1 acc (hmem p (List.mem_cons_self p rest))]
    omega

/-- Subtracting one from every value lowers the sum by the length. -/
theorem sum_map_sub_one (l : List (Int × ℚ)) :
    (l.map (fun p => p.2 - 1)).sum = (l.map Prod.snd).sum - l.length := by
  induction l with
  | nil => simp
  | cons p rest ih =>
    simp only [List.map_cons, List.sum_cons, List.length_cons, ih]
    push_cast
    ring

/-- Core of the largest-remainder step for one level: starting from the raw
shares, flooring, and awarding one unit to each of the first
`T - sum-of-floors` entries of the stable descending-remainder sort keeps
one entry per key in order and makes the values sum to exactly `T`. -/
theorem allocateCore (raw : List (Int × ℚ)) (T : Int)
    (hnd : (raw.map Prod.fst).Nodup)
    (hsumraw : (raw.map Prod.snd).sum = (T : ℚ)) :
    ((pySliceTo (raw.mergeSort (fun a b =>
        decide ((b.2 - (⌊b.2⌋ : ℚ)) ≤ (a.2 - (⌊a.2⌋ : ℚ)))))
        (T - ((dictOfPairs (raw.map (fun p => (p.1, ⌊p.2⌋)))).map
          Prod.snd).sum)).foldl (fun acc p => bumpFirst p.1 acc)
      (dictOfPairs (raw.map (fun p => (p.1, ⌊p.2⌋))))).map Prod.fst =
      raw.map Prod.fst ∧
    (((pySliceTo (raw.mergeSort (fun a b =>
        decide ((b.2 - (⌊b.2⌋ : ℚ)) ≤ (a.2 - (⌊a.2⌋ : ℚ)))))
        (T - ((dictOfPairs (raw.map (fun p => (p.1, ⌊p.2⌋)))).map
          Prod.snd).sum)).foldl (fun acc p => bumpFirst p.1 acc)
      (dictOfPairs (raw.map (fun p => (p.1, ⌊p.2⌋))))).map Prod.snd).sum =
      T := by
  have hflfst : (raw.map (fun p => (p.1, ⌊p.2⌋))).map Prod.fst =
      raw.map Prod.fst := by
    rw [List.map_map]
    rfl
  have hdict : dictOfPairs (raw.map (fun p => (p.1, ⌊p.2⌋))) =
      raw.map (fun p => (p.1, ⌊p.2⌋)) :=
    dictOfPairs_eq_self _ (by rw [hflfst]; exact hnd)
  rw [hdict]
  have hflsnd : (raw.map (fun p => (p.1, ⌊p.2⌋))).map Prod.snd =
      raw.map (fun p => ⌊p.2⌋) := by
    rw [List.map_map]
    rfl
  rw [hflsnd]
  have hcast : (((raw.map (fun p => ⌊p.2⌋)).sum : Int) : ℚ) =
      (raw.map (fun p => ((⌊p.2⌋ : Int) : ℚ))).sum := by
    rw [Int.cast_list_sum, List.map_map]
    rfl
  have husedle : (raw.map (fun p => ⌊p.2⌋)).sum ≤ T := by
    have h : (((raw.map (fun p => ⌊p.2⌋)).sum : Int) : ℚ) ≤ (T : ℚ) := by
      rw [hcast, ← hsumraw]
      exact List.sum_le_sum (fun p _ => Int.floor_le p.2)
    exact_mod_cast h
  have husedge : T - raw.length ≤ (raw.map (fun p => ⌊p.2⌋)).sum := by
    have h : (T : ℚ) - raw.length ≤
        (((raw.map (fun p => ⌊p.2⌋)).sum : Int) : ℚ) := by
      rw [hcast]
      calc (T : ℚ) - raw.length
          = (raw.map (fun p => p.2 - 1)).sum := by
            rw [sum_map_sub_one, hsumraw]
        _ ≤ (raw.map (fun p => ((⌊p.2⌋ : Int) : ℚ))).sum :=
            List.sum_le_sum (fun p _ => le_of_lt (Int.sub_one_lt_floor p.2))
    exact_mod_cast h
  have hrem0 : 0 ≤ T - (raw.map (fun p => ⌊p.2⌋)).sum := by omega
  have hslice : pySliceTo (raw.mergeSort (fun a b =>
      decide ((b.2 - (⌊b.2⌋ : ℚ)) ≤ (a.2 - (⌊a.2⌋ : ℚ)))))
      (T - (raw.map (fun p => ⌊p.2⌋)).sum) =
      (raw.mergeSort (fun a b =>
        decide ((b.2 - (⌊b.2⌋ : ℚ)) ≤ (a.2 - (⌊a.2⌋ : ℚ))))).take
        (T - (raw.map (fun p => ⌊p.2⌋)).sum).toNat := by
    rw [pySliceTo, if_neg (not_lt.mpr hrem0)]
  rw [hslice]
  have hperm := List.mergeSort_perm raw (fun a b =>
    decide ((b.2 - (⌊b.2⌋ : ℚ)) ≤ (a.2 - (⌊a.2⌋ : ℚ))))
  have hSmem : ∀ p ∈ (raw.mergeSort (fun a b =>
      decide ((b.2 - (⌊b.2⌋ : ℚ)) ≤ (a.2 - (⌊a.2⌋ : ℚ))))).take
        (T - (raw.map (fun p => ⌊p.2⌋)).sum).toNat,
      p.1 ∈ (raw.map (fun p => (p.1, ⌊p.2⌋))).map Prod.fst := by
    intro p hp
    have hpr : p ∈ raw :=
      hperm.subset ((List.take_sublist _ _).subset hp)
    rw [hflfst]
    exact List.mem_map_of_mem Prod.fst hpr
  obtain ⟨hkeys, hsum⟩ := foldl_bumpFirst_spec _ _ hSmem
  have hSlen : ((raw.mergeSort (fun a b =>
      decide ((b.2 - (⌊b.2⌋ : ℚ)) ≤ (a.2 - (⌊a.2⌋ : ℚ))))).take
        (T - (raw.map (fun p => ⌊p.2⌋)).sum).toNat).length =
      (T - (raw.map (fun p => ⌊p.2⌋)).sum).toNat := by
    rw [List.length_take, hperm.length_eq]
    have : (T - (raw.map (fun p => ⌊p.2⌋)).sum).toNat ≤ raw.length := by
      rw [Int.toNat_le]
      omega
    omega
  constructor
  · rw [hkeys, hflfst]
  · rw [hsum, hSlen, hflsnd]
    omega

/-- One level of the largest-remainder allocation: one cell per outcome in
input order, and the cells sum to exactly the level total. -/
theorem allocateLevel_spec (outcomes : List OutcomeW) (T : Int)
    (hw : (outcomes.map (fun oc => oc.weight)).sum = 1)
    (hid : (outcomes.map (fun oc => oc.id)).Nodup) :
    (allocateLevel outcomes T).map Prod.fst =
      outcomes.map (fun oc => oc.id) ∧
    ((allocateLevel outcomes T).map Prod.snd).sum = T := by
  have hrawfst : (outcomes.map
      (fun o => (o.id, (T : ℚ) * o.weight))).map Prod.fst =
      outcomes.map (fun oc => oc.id) := by
    rw [List.map_map]
    rfl
  have hrawsnd : ((outcomes.map
      (fun o => (o.id, (T : ℚ) * o.weight))).map Prod.snd).sum = (T : ℚ) := by
    rw [List.map_map]
    show (outcomes.map (fun o => (T : ℚ) * o.weight)).sum = (T : ℚ)
    rw [List.sum_map_mul_left, hw, mul_one]
  obtain ⟨h1, h2⟩ := allocateCore
    (outcomes.map (fun o => (o.id, (T : ℚ) * o.weight))) T
    (by rw [hrawfst]; exact hid) hrawsnd
  exact ⟨h1.trans hrawfst, h2⟩

/-- C4: for every outcome list with distinct ids whose weights sum to 1
and every list of non-negative per-level totals,
`allocate_items_largest_remainder` produces, level by level, a cell map
with one entry per outcome id (in input order, possibly 0) whose values
sum to exactly that level's total. -/
theorem C4_largest_remainder (outcomes : List OutcomeW)
    (bloom_items : List (String × Int))
    (hw : (outcomes.map (fun oc => oc.weight)).sum = 1)
    (hid : (outcomes.map (fun oc => oc.id)).Nodup)
    (hT : ∀ bt ∈ bloom_items, 0 ≤ bt.2) :
    List.Forall₂ (fun bt lr => lr.1 = bt.1 ∧
      lr.2.map Prod.fst = outcomes.map (fun oc => oc.id) ∧
      (lr.2.map Prod.snd).sum = bt.2)
      bloom_items (allocate_items_largest_remainder outcomes bloom_items) := by
  rw [allocate_items_largest_remainder, List.forall₂_map_right_iff,
    List.forall₂_same]
  intro bt hbt
  obtain ⟨h1, h2⟩ := allocateLevel_spec outcomes bt.2 hw hid
  exact ⟨rfl, h1, h2⟩

/-- C7: slot expansion round-trips — the expanded list has length equal to
the grand total of the matrix, and counting the slots of each
(level, outcome) group reproduces every cell of the matrix exactly. -/
theorem C7_expand_roundtrip (M : TOSMatrix) (o : List Outcome)
    (hkeys : (M.map Prod.fst).Nodup)
    (hrows : ∀ lr ∈ M, (lr.2.map Prod.fst).Nodup)
    (hcells : ∀ lr ∈ M, ∀ c ∈ lr.2, 0 ≤ c.2) :
    ((expand_bloom_slots M o).length : Int) =
      (M.map (fun lr => (lr.2.map Prod.snd).sum)).sum ∧
    ∀ lr ∈ M, ∀ c ∈ lr.2,
      ((expand_bloom_slots M o).countP
        (fun s => s.bloom_level == lr.1 && s.outcome_id == c.1) : Int) =
      c.2 := by
  refine ⟨length_expand_bloom_int M o hcells, ?_⟩
  intro lr hlr c hc
  have hmem : (lr.1, lr.2) ∈ M := by rw [Prod.mk.eta]; exact hlr
  have hcell : (c.1, c.2) ∈ lr.2 := by rw [Prod.mk.eta]; exact hc
  rw [countP_expand_bloom_cell M o lr.1 lr.2 c.1 c.2 hkeys hmem
    (hrows lr hlr) hcell]
  exact Int.toNat_of_nonneg (hcells lr hlr c hc)

/-- C1 counterexample: the empty matrix and empty distribution satisfy
every hypothesis of the claim as stated (equal totals, vacuously distinct
labels and positive counts), yet the assignment raises
`ZeroDivisionError` instead of returning without error. -/
theorem C1_counterexample_zero_total :
    assign_question_types_to_bloom_slots id ([] : TOSMatrix) [] [] false =
      .error .zeroDivisionError := by
  rfl

/-- C1 witness: a concrete 3-item instance on which the round-trip theorem
applies and its hypotheses hold. -/
theorem C1_witness :
    ((([("Remember", [(0, 2)]), ("Apply", [(0, 1)])] : TOSMatrix).map
      Prod.fst).Nodup) ∧
    (∀ lr ∈ ([("Remember", [(0, 2)]), ("Apply", [(0, 1)])] : TOSMatrix),
      ∀ c ∈ lr.2, 0 ≤ c.2) ∧
    ((([⟨"MCQ", 2, 1⟩, ⟨"Essay", 1, 5⟩] : List QuestionType).map
      (fun q => q.type)).Nodup) ∧
    (∀ qt ∈ ([⟨"MCQ", 2, 1⟩, ⟨"Essay", 1, 5⟩] : List QuestionType),
      0 < qt.items) ∧
    ((([("Remember", [(0, 2)]), ("Apply", [(0, 1)])] : TOSMatrix).map
        (fun lr => (lr.2.map Prod.snd).sum)).sum =
      (([⟨"MCQ", 2, 1⟩, ⟨"Essay", 1, 5⟩] : List QuestionType).map
        (fun q => q.items)).sum) ∧
    (([⟨"MCQ", 2, 1⟩, ⟨"Essay", 1, 5⟩] : List QuestionType) ≠ []) ∧
    ∃ l md,
      assign_question_types_to_bloom_slots id
        ([("Remember", [(0, 2)]), ("Apply", [(0, 1)])] : TOSMatrix)
        [⟨0, "Define the key terms"⟩]
        ([⟨"MCQ", 2, 1⟩, ⟨"Essay", 1, 5⟩] : List QuestionType) false =
        .ok (l, md) ∧
      verify_assignment_integrity l
        ([("Remember", [(0, 2)]), ("Apply", [(0, 1)])] : TOSMatrix)
        ([⟨"MCQ", 2, 1⟩, ⟨"Essay", 1, 5⟩] : List QuestionType) =
        (true, []) :=
  ⟨by decide, by decide, by decide, by decide, by decide, by decide,
   C1_assign_verify_roundtrip id _ _ _ (by decide) (by decide) (by decide)
     (by decide) (by decide) (by decide)⟩

/-- C9 witness: a matrix whose single cell is zero and an empty
distribution expand to zero slots on both axes, and the assignment (with
`shuffle=True` and a genuine permutation as the random source) raises
`ZeroDivisionError`. -/
theorem C9_witness :
    (∀ l : List AssignedSlot, (List.reverse l).Perm l) ∧
    expand_bloom_slots ([("Remember", [(0, 0)])] : TOSMatrix) [] = [] ∧
    expand_type_slots [] = [] ∧
    assign_question_types_to_bloom_slots List.reverse
      ([("Remember", [(0, 0)])] : TOSMatrix) [] [] true =
      .error .zeroDivisionError :=
  ⟨fun l => List.reverse_perm l, by decide, by decide,
   C9_zero_total_division_error List.reverse (fun l => List.reverse_perm l)
     _ _ _ true (by decide) (by decide)⟩

/-- C6 witness: with the reversal permutation as random source and the
concrete 20-item example, the determinism and permutation conclusions
hold. -/
theorem C6_witness :
    (∀ rng2 : List AssignedSlot → List AssignedSlot,
      assign_question_types_to_bloom_slots rng2
        ([("Remember", [(0, 12)]), ("Apply", [(0, 8)])] : TOSMatrix)
        [⟨0, "Understand core concepts"⟩]
        ([⟨"MCQ", 12, 1⟩, ⟨"Problem Solving", 8, 2⟩] : List QuestionType)
        false =
      assign_question_types_to_bloom_slots List.reverse
        ([("Remember", [(0, 12)]), ("Apply", [(0, 8)])] : TOSMatrix)
        [⟨0, "Understand core concepts"⟩]
        ([⟨"MCQ", 12, 1⟩, ⟨"Problem Solving", 8, 2⟩] : List QuestionType)
        false) ∧
    (∀ l1 md1,
      assign_question_types_to_bloom_slots List.reverse
        ([("Remember", [(0, 12)]), ("Apply", [(0, 8)])] : TOSMatrix)
        [⟨0, "Understand core concepts"⟩]
        ([⟨"MCQ", 12, 1⟩, ⟨"Problem Solving", 8, 2⟩] : List QuestionType)
        true = .ok (l1, md1) →
      ∃ l0 md0,
        assign_question_types_to_bloom_slots List.reverse
          ([("Remember", [(0, 12)]), ("Apply", [(0, 8)])] : TOSMatrix)
          [⟨0, "Understand core concepts"⟩]
          ([⟨"MCQ", 12, 1⟩, ⟨"Problem Solving", 8, 2⟩] : List QuestionType)
          false = .ok (l0, md0) ∧
        l1.Perm l0 ∧ md1 = md0) :=
  C6_shuffle_is_permutation List.reverse (fun l => List.reverse_perm l) _ _ _

/-- C8 counterexample: an empty distribution with a non-zero target
reports only the single no-types violation (the function returns early),
not also the sum-mismatch violation the claim requires. -/
theorem C8_counterexample_empty_single_error :
    validate_question_type_distribution [] 5 =
      (false, [QTValidationError.noTypes]) ∧
    (validate_question_type_distribution [] 5).2.length = 1 := by
  constructor
  · rfl
  · rfl

/-- C7 witness: concrete two-cell matrix on which the round-trip theorem
applies and its hypotheses hold. -/
theorem C7_witness :
    ((([("Remember", [(0, 2), (1, 1)])] : TOSMatrix).map Prod.fst).Nodup) ∧
    (∀ lr ∈ ([("Remember", [(0, 2), (1, 1)])] : TOSMatrix),
      (lr.2.map Prod.fst).Nodup) ∧
    (∀ lr ∈ ([("Remember", [(0, 2), (1, 1)])] : TOSMatrix),
      ∀ c ∈ lr.2, 0 ≤ c.2) ∧
    (((expand_bloom_slots ([("Remember", [(0, 2), (1, 1)])] : TOSMatrix)
        []).length : Int) =
      (([("Remember", [(0, 2), (1, 1)])] : TOSMatrix).map
        (fun lr => (lr.2.map Prod.snd).sum)).sum ∧
     ∀ lr ∈ ([("Remember", [(0, 2), (1, 1)])] : TOSMatrix), ∀ c ∈ lr.2,
      ((expand_bloom_slots ([("Remember", [(0, 2), (1, 1)])] : TOSMatrix)
          []).countP
        (fun s => s.bloom_level == lr.1 && s.outcome_id == c.1) : Int) =
      c.2) :=
  ⟨by decide, by decide, by decide,
   C7_expand_roundtrip _ [] (by decide) (by decide) (by decide)⟩

/-- C5 witness: the spec's concrete scenario (Remember and Understand at
50 percent each, 10 items) discharges the hypotheses and instantiates the
conclusion. -/
theorem C5_witness :
    ((0 : Int) ≤ 10) ∧
    (∀ b ∈ BLOOM_LEVELS, (0 : Int) ≤
      (if b = "Remember" then 50 else if b = "Understand" then 50 else 0)) ∧
    (compute_bloom_item_totals
        (fun b => if b = "Remember" then 50 else
          if b = "Understand" then 50 else 0) 10 =
      (BLOOM_LEVELS.dropLast.map (fun b =>
        (b, ⌊((10 : Int) : ℚ) * ((((if b = "Remember" then (50 : Int) else
          if b = "Understand" then 50 else 0) : Int) : ℚ) / 100)⌋))) ++
      [("Create", 10 - (BLOOM_LEVELS.dropLast.map (fun b =>
        ⌊((10 : Int) : ℚ) * ((((if b = "Remember" then (50 : Int) else
          if b = "Understand" then 50 else 0) : Int) : ℚ) / 100)⌋)).sum)] ∧
     ((compute_bloom_item_totals
        (fun b => if b = "Remember" then 50 else
          if b = "Understand" then 50 else 0) 10).map Prod.snd).sum = 10 ∧
     ((10 : Int) = 0 → compute_bloom_item_totals
        (fun b => if b = "Remember" then 50 else
          if b = "Understand" then 50 else 0) 10 =
        BLOOM_LEVELS.map (fun b => (b, 0)))) :=
  ⟨by decide, by decide,
   C5_bloom_totals _ 10 (by decide) (by decide)⟩

/-- C4 witness: the spec's concrete scenario (weights 3/4 and 1/4, level
total 5) discharges the hypotheses and instantiates the conclusion. -/
theorem C4_witness :
    ((([⟨0, (3 : ℚ)/4⟩, ⟨1, (1 : ℚ)/4⟩] : List OutcomeW).map
      (fun oc => oc.weight)).sum = 1) ∧
    ((([⟨0, (3 : ℚ)/4⟩, ⟨1, (1 : ℚ)/4⟩] : List OutcomeW).map
      (fun oc => oc.id)).Nodup) ∧
    (∀ bt ∈ ([("Remember", 5)] : List (String × Int)), (0 : Int) ≤ bt.2) ∧
    List.Forall₂ (fun (bt : String × Int) (lr : String × List (Int × Int)) =>
      lr.1 = bt.1 ∧
      lr.2.map Prod.fst =
        ([⟨0, (3 : ℚ)/4⟩, ⟨1, (1 : ℚ)/4⟩] : List OutcomeW).map
          (fun oc => oc.id) ∧
      (lr.2.map Prod.snd).sum = bt.2)
      ([("Remember", 5)] : List (String × Int))
      (allocate_items_largest_remainder
        ([⟨0, (3 : ℚ)/4⟩, ⟨1, (1 : ℚ)/4⟩] : List OutcomeW)
        ([("Remember", 5)] : List (String × Int))) :=
  ⟨by norm_num, by decide, by decide,
   C4_largest_remainder _ _ (by norm_num) (by decide) (by decide)⟩
